import Mathlib

/-!
Verification of the partition-resolution and call-compilation engine of
`jax/experimental/pjit.py`: placement-spec parsing, shape/resource
validation, resource-uniqueness checking, the sharding-constraint
operator's differentiation rule, the transformation-participation
parameter rewrites, the named-axis resource typing pass, and the
compilation cache.
-/

namespace PjitSpec

/-! ## Data model: placement specifications -/

/-- One element of a user-facing `PartitionSpec`: either `None`,
a single mesh-axis name, or a list/tuple of mesh-axis names
(mirrors the three cases of `ParsedPartitionSpec.from_user_input`). -/
inductive AxisEntry where
  | noAxis : AxisEntry
  | single (a : String) : AxisEntry
  | multi (as : List String) : AxisEntry
deriving DecidableEq, Repr

/-- A user-supplied per-leaf placement declaration: `None`, a
`PartitionSpec(...)`, or any other value (which `from_user_input`
rejects with a `TypeError`). -/
inductive UserSpec where
  | noSpec : UserSpec
  | pspec (entries : List AxisEntry) : UserSpec
  | other (tag : String) : UserSpec
deriving DecidableEq, Repr

/-- The parsed, normalized placement specification
(`ParsedPartitionSpec`): the original user declaration plus one entry
per tensor dimension, each entry a collection of resource-axis names. -/
structure ParsedPartitionSpec where
  user_spec : UserSpec
  partitions : List (List String)
deriving DecidableEq, Repr

/-- The singleton `REPLICATED = ParsedPartitionSpec(None, ())`:
empty dimension sequence, representing no partitioning. -/
def REPLICATED : ParsedPartitionSpec := ⟨UserSpec.noSpec, []⟩

/-- Normalization of one `PartitionSpec` element in
`ParsedPartitionSpec.from_user_input`: `None` becomes the empty
collection, a list or tuple is kept, anything else becomes a singleton. -/
def normalizeAxisEntry : AxisEntry → List String
  | AxisEntry.noAxis => []
  | AxisEntry.single a => [a]
  | AxisEntry.multi as => as

/-- `ParsedPartitionSpec.from_user_input`: `None` parses to a spec with
no partitions; a `PartitionSpec` parses each element; anything else
raises a `TypeError` naming the offending value. -/
def from_user_input : UserSpec → Except String ParsedPartitionSpec
  | UserSpec.noSpec => Except.ok ⟨UserSpec.noSpec, []⟩
  | UserSpec.pspec entries =>
      Except.ok ⟨UserSpec.pspec entries, entries.map normalizeAxisEntry⟩
  | UserSpec.other tag => Except.error tag

/-- `ParsedPartitionSpec.__eq__`: structural comparison of the pair
`(partitions, user_spec)`. -/
def ppsEq (a b : ParsedPartitionSpec) : Bool :=
  decide ((a.partitions, a.user_spec) = (b.partitions, b.user_spec))

/-- Cantor pairing, used to build concrete hash values. -/
def mixHash (a b : Nat) : Nat := (a + b) * (a + b + 1) / 2 + b

/-- Concrete hash of a string (folds over its characters). -/
def strHash (s : String) : Nat := s.data.foldl (fun a c => mixHash a c.toNat) 5

/-- Concrete hash of one dimension's resource-axis collection. -/
def axesHash (l : List String) : Nat := l.foldl (fun a s => mixHash a (strHash s)) 3

/-- Concrete hash of a partitions tuple. -/
def partitionsHash (p : List (List String)) : Nat :=
  p.foldl (fun a l => mixHash a (axesHash l)) 11

/-- `ParsedPartitionSpec.__hash__`: `hash(self.partitions)` — the hash
is computed from the partitions tuple alone. -/
def ppsHash (s : ParsedPartitionSpec) : Nat := partitionsHash s.partitions

/-! ## Resource environment -/

/-- `resource_env.local_shape`: the mapping from resource-axis name to
its local size, as an association list. -/
abbrev LocalShape := List (String × Nat)

/-- Key lookup in `local_shape`; `none` models a `KeyError`. -/
def lookupResource (sizes : LocalShape) (r : String) : Option Nat :=
  match sizes with
  | [] => none
  | (a, n) :: rest => if a = r then some n else lookupResource rest r

/-- The resource environment read from the ambient scope: its
`local_shape` plus an identity for the physical mesh (the environment
participates in cache keys by identity). -/
structure ResourceEnv where
  local_shape : LocalShape
  meshId : Nat
deriving DecidableEq, Repr

/-! ## Shape/resource validator (`_check_shapes_against_resources`) -/

/-- The three `ValueError` shapes raised by
`_check_shapes_against_resources`: rank excess, undefined resource
axis (from the `KeyError`), and a non-divisible dimension. -/
inductive ShapeError where
  | rankError (spec : ParsedPartitionSpec) (implied : Nat) (rank : Nat)
  | undefinedAxis (spec : ParsedPartitionSpec) (axis : String)
  | notDivisible (spec : ParsedPartitionSpec) (dim : Nat) (size : Nat) (actual : Nat)
deriving DecidableEq, Repr

/-- `np.prod([resource_sizes[resource] for resource in axis_resources])`:
the product of the sizes of one dimension's resource axes; the first
axis missing from `local_shape` raises a `KeyError` carrying its name. -/
def resourceProd (sizes : LocalShape) (axes : List String) : Except String Nat :=
  match axes with
  | [] => Except.ok 1
  | a :: rest =>
      match lookupResource sizes a with
      | none => Except.error a
      | some n =>
          match resourceProd sizes rest with
          | Except.error e => Except.error e
          | Except.ok m => Except.ok (n * m)

/-- The loop `for i, axis_resources in enumerate(aval_axis_resources)`
of `_check_shapes_against_resources`, carrying the running dimension
index `i`: look up the resource product for the dimension and check
that the value's size along `i` is divisible by it. -/
def checkDims (spec : ParsedPartitionSpec) (sizes : LocalShape) (shape : List Nat)
    (parts : List (List String)) (i : Nat) : Except ShapeError Unit :=
  match parts with
  | [] => Except.ok ()
  | axes :: rest =>
      match resourceProd sizes axes with
      | Except.error a => Except.error (ShapeError.undefinedAxis spec a)
      | Except.ok size =>
          if shape.getD i 0 % size ≠ 0 then
            Except.error (ShapeError.notDivisible spec i size (shape.getD i 0))
          else checkDims spec sizes shape rest (i + 1)

/-- The body of `_check_shapes_against_resources` for one
`(value, placement)` pair: the rank check followed by the
per-dimension divisibility checks. -/
def checkVal (sizes : LocalShape) (shape : List Nat) (spec : ParsedPartitionSpec) :
    Except ShapeError Unit :=
  if shape.length < spec.partitions.length then
    Except.error (ShapeError.rankError spec spec.partitions.length shape.length)
  else checkDims spec sizes shape spec.partitions 0

/-- `_check_shapes_against_resources`: iterate the zipped
`(flat_vals, flat_axis_resources)` pairs, stopping at the first error
(`zip` truncates to the shorter list). -/
def check_shapes_against_resources (sizes : LocalShape) (vals : List (List Nat))
    (specs : List ParsedPartitionSpec) : Except ShapeError Unit :=
  match vals, specs with
  | v :: vs, s :: ss =>
      match checkVal sizes v s with
      | Except.ok _ => check_shapes_against_resources sizes vs ss
      | Except.error e => Except.error e
  | _, _ => Except.ok ()

/-! ## Resource-uniqueness checker (`_check_unique_resources`) -/

/-- Errors the uniqueness checker can raise: the `ValueError` carrying
the axis names used more than once, and the `IndexError` that
`most_common(1)[0]` raises when the declaration has dimensions but no
resource axes at all. -/
inductive UniqueError where
  | indexError
  | valueError (multipleUses : List String)
deriving DecidableEq, Repr

/-- `resource_counts.most_common(1)[0][1]`: the largest multiplicity
among the resource-axis occurrences. -/
def maxCount (all : List String) : Nat :=
  (all.map (fun a => all.count a)).foldl Nat.max 0

/-- The body of `_check_unique_resources` for one spec: skip an empty
declaration, count the occurrences of each axis across all dimensions,
and raise a `ValueError` listing the axes that occur more than once
(an `IndexError` escapes when there are dimensions but no axes). -/
def checkUniqueOne (spec : ParsedPartitionSpec) : Except UniqueError Unit :=
  if spec.partitions.length = 0 then Except.ok ()
  else
    let chained := spec.partitions.flatten
    if chained.isEmpty then Except.error UniqueError.indexError
    else if 1 < maxCount chained then
      let multipleUses := chained.dedup.filter (fun r => 1 < chained.count r)
      if multipleUses.isEmpty then Except.ok ()
      else Except.error (UniqueError.valueError multipleUses)
    else Except.ok ()

/-- `_check_unique_resources`: the loop over all parsed leaf specs of
one declaration, stopping at the first failing spec. -/
def check_unique_resources (specs : List ParsedPartitionSpec) : Except UniqueError Unit :=
  match specs with
  | [] => Except.ok ()
  | s :: rest =>
      match checkUniqueOne s with
      | Except.ok _ => check_unique_resources rest
      | Except.error e => Except.error e

/-! ## `_prepare_axis_resources` -/

/-- Errors of `_prepare_axis_resources`: a `TypeError` from parsing a
leaf, or an error from the uniqueness checker. -/
inductive PrepareError where
  | typeError (tag : String)
  | uniqueError (e : UniqueError)
deriving DecidableEq, Repr

/-- Parse every flattened leaf entry with `from_user_input`,
propagating the first `TypeError`. -/
def parseEntries : List UserSpec → Except PrepareError (List ParsedPartitionSpec)
  | [] => Except.ok []
  | e :: rest =>
      match from_user_input e with
      | Except.error t => Except.error (PrepareError.typeError t)
      | Except.ok p =>
          match parseEntries rest with
          | Except.error err => Except.error err
          | Except.ok ps => Except.ok (p :: ps)

/-- `_prepare_axis_resources`: a top-level `None` returns the
`REPLICATED` singleton as the single entry; otherwise the flattened
leaf entries (flattening is the tree-utility collaborator's job) are
parsed and checked for unique resources.  Returns the entry list. -/
def prepare_axis_resources : Option (List UserSpec) → Except PrepareError (List ParsedPartitionSpec)
  | Option.none => Except.ok [REPLICATED]
  | Option.some entries => do
      let parsed ← parseEntries entries
      match check_unique_resources parsed with
      | Except.error e => Except.error (PrepareError.uniqueError e)
      | Except.ok _ => Except.ok parsed

/-! ## Sharding constraint operator (`sharding_constraint_p`) -/

/-- A fragment of the computation graph sufficient to express binding
the `sharding_constraint` primitive: a value, or the primitive applied
to an operand with its `axis_resources` and `resource_env` parameters. -/
inductive ShardingTerm where
  | value (id : Nat)
  | shardingConstraint (operand : ShardingTerm) (axis_resources : ParsedPartitionSpec)
      (resource_env : ResourceEnv)
deriving DecidableEq, Repr

/-- `sharding_constraint_p.bind(y, axis_resources=..., resource_env=...)`:
insert a sharding-constraint node over `y`. -/
def shardingConstraintBind (y : ShardingTerm) (r : ParsedPartitionSpec)
    (env : ResourceEnv) : ShardingTerm :=
  ShardingTerm.shardingConstraint y r env

/-- The `ad.deflinear2` transpose rule of `sharding_constraint_p`:
given the cotangent, rebind the same primitive on the cotangent with
the identical `axis_resources` and `resource_env` parameters. -/
def shardingConstraintTranspose (ct : ShardingTerm) (r : ParsedPartitionSpec)
    (env : ResourceEnv) : List ShardingTerm :=
  [shardingConstraintBind ct r env]

/-- `sharding_constraint_p.def_abstract_eval(lambda x, **unused: x)`:
the abstract evaluation is the identity on the operand's type. -/
def shardingConstraintAbstractEval (x : List Nat) (_r : ParsedPartitionSpec)
    (_env : ResourceEnv) : List Nat := x

/-! ## Named-axis resource typing (`_check_resources_against_named_axes`,
`_resource_typing_pjit`) -/

/-- `_check_resources_against_named_axes`: the set of mesh axes used by
the value's positional placement, intersected with the set of mesh
axes bound to the value's named axes; a non-empty overlap raises a
`JAXTypeError` carrying the overlapping axes. -/
def check_resources_against_named_axes (namedShape : List String)
    (pos : ParsedPartitionSpec) (namedAxisResources : String → List String) :
    Except (List String) Unit :=
  let pjitResources := pos.partitions.flatten
  let avalResources := (namedShape.map namedAxisResources).flatten
  let overlap := pjitResources.dedup.filter (fun r => r ∈ avalResources)
  if overlap.isEmpty then Except.ok () else Except.error overlap

/-- One zipped pass of `_resource_typing_pjit` over boundary values
(`zip(jaxpr.invars, in_axis_resources)` or the outvars analogue):
check every pair, stopping at the first conflict. -/
def checkBoundary (pairs : List (List String × ParsedPartitionSpec))
    (named : String → List String) : Except (List String) Unit :=
  match pairs with
  | [] => Except.ok ()
  | (ns, p) :: rest =>
      match check_resources_against_named_axes ns p named with
      | Except.ok _ => checkBoundary rest named
      | Except.error e => Except.error e

/-- `_resource_typing_pjit`: check every input against its placement,
delegate the body's internal resource usage to the lowering
collaborator's typing pass (here a parameter), then check every
output.  `invarNamedShapes` and `outvarNamedShapes` are the
`named_shape`s of the call body's invars and outvars. -/
def resource_typing_pjit (invarNamedShapes : List (List String))
    (inAxisResources : List ParsedPartitionSpec)
    (bodyCheck : Except (List String) Unit)
    (outvarNamedShapes : List (List String))
    (outAxisResources : List ParsedPartitionSpec)
    (named : String → List String) : Except (List String) Unit :=
  match checkBoundary (invarNamedShapes.zip inAxisResources) named with
  | Except.error e => Except.error e
  | Except.ok _ =>
      match bodyCheck with
      | Except.error e => Except.error e
      | Except.ok _ => checkBoundary (outvarNamedShapes.zip outAxisResources) named

/-! ## Output-placement thunks

The deferred output-placement callables are wrapped in
`HashableFunction` / `as_hashable_function`, whose `__eq__` and
`__hash__` compare the function's code object and its declared
closure, never the wrapper's object identity. -/

/-- The hash/equality-relevant content of an output-placement thunk:
an opaque original thunk (identified by its own key), or the thunk
built by `_pjit_jvp_update_params`, whose declared closure is
`(tuple(nz_tangents), out_axis_resources_thunk)`. -/
inductive ThunkKey where
  | base (closureId : Nat)
  | jvpClosure (nzTangents : List Bool) (inner : ThunkKey)
deriving DecidableEq, Repr

/-- An output-placement thunk: a fresh object identity (ignored by
equality and hash), the `(code, closure)` content compared by
`HashableFunction.__eq__`, and the zero-argument behavior. -/
structure OutThunk where
  ident : Nat
  key : ThunkKey
  run : Unit → List ParsedPartitionSpec

/-- `HashableFunction.__eq__` / `as_hashable_function` equality: the
code object and closure decide equality; object identity does not. -/
def thunkEq (a b : OutThunk) : Bool := decide (a.key = b.key)

/-- Concrete hash of a list of booleans. -/
def boolsHash (l : List Bool) : Nat :=
  l.foldl (fun a b => mixHash a (cond b 1 0)) 13

/-- Concrete hash of a thunk key. -/
def thunkKeyHash : ThunkKey → Nat
  | ThunkKey.base c => mixHash 0 c
  | ThunkKey.jvpClosure nz inner => mixHash 1 (mixHash (boolsHash nz) (thunkKeyHash inner))

/-- `HashableFunction.__hash__`: a function of the `(code, closure)`
content only. -/
def thunkHash (t : OutThunk) : Nat := thunkKeyHash t.key

/-! ## Call-node parameters and the transformation rewrites -/

/-- The parameters of a `pjit_call` node as bound by `pjit`:
the rewritten call body's invar count stands in for `call_jaxpr`
(only `len(call_jaxpr.invars)` is consulted by the rewrites). -/
structure PjitBindParams where
  callJaxprInvars : Nat
  donated_invars : List Bool
  in_axis_resources : List ParsedPartitionSpec
  out_axis_resources_thunk : OutThunk

/-- The parameters after `_pjit_partial_eval_update_params`: the thunk
has been replaced by the freshly evaluated concrete output placements. -/
structure PjitPEParams where
  callJaxprInvars : Nat
  donated_invars : List Bool
  in_axis_resources : List ParsedPartitionSpec
  out_axis_resources : List ParsedPartitionSpec

/-- `filter_unknown` of `_pjit_partial_eval_update_params`: keep the
entries of `l` at positions `zip`ped with a true `in_unknowns` flag. -/
def filterUnknown {α : Type} (l : List α) (inUnknowns : List Bool) : List α :=
  (l.zip inUnknowns).filterMap (fun x => if x.2 then some x.1 else none)

/-- `_pjit_partial_eval_update_params`: the staging rewrite of the call
parameters.  With no unknown flags and a non-empty donation vector
(the post-process replay), every invar of the new body gets `False`
donation and a `REPLICATED` placement; otherwise the known positions
are dropped and `num_consts = len(call_jaxpr.invars) -
len(donated_invars)` constant slots are prepended (Python's negative
tuple repetition clamps to empty, as `Nat` subtraction does here).
The output placements are recomputed by running the thunk. -/
def pjit_pe_update_params (params : PjitBindParams) (inUnknowns : List Bool) :
    PjitPEParams :=
  if inUnknowns.isEmpty && !params.donated_invars.isEmpty then
    { callJaxprInvars := params.callJaxprInvars
      donated_invars := List.replicate params.callJaxprInvars false
      in_axis_resources := List.replicate params.callJaxprInvars REPLICATED
      out_axis_resources := params.out_axis_resources_thunk.run () }
  else
    let numConsts := params.callJaxprInvars - params.donated_invars.length
    { callJaxprInvars := params.callJaxprInvars
      donated_invars :=
        List.replicate numConsts false ++ filterUnknown params.donated_invars inUnknowns
      in_axis_resources :=
        List.replicate numConsts REPLICATED ++
          filterUnknown params.in_axis_resources inUnknowns
      out_axis_resources := params.out_axis_resources_thunk.run () }

/-- `Modelled from the spec:` the partial-evaluation caller (the
differentiation/staging substrate, outside this file's source) "drops
known input tracers and prepends constants", so the rewritten call
body has one invar per prepended constant followed by one invar per
unknown-position argument. -/
def rewrittenInvarCount (numConsts : Nat) (inUnknowns : List Bool) : Nat :=
  numConsts + inUnknowns.count true

/-- `filter_nonzero_ins` of `_pjit_jvp_update_params`: keep entries at
positions with a nonzero tangent. -/
def filterNonzeroIns {α : Type} (l : List α) (nzTangents : List Bool) : List α :=
  (l.zip nzTangents).filterMap (fun x => if x.2 then some x.1 else none)

/-- `_pjit_jvp_update_params`: the forward-differentiation rewrite.
Donation flags and input placements are extended with the entries at
nonzero-tangent positions; the new output-placement thunk appends to
the original outputs the placements at nonzero-tangent-output
positions, and is wrapped by `as_hashable_function` with the closure
`(tuple(nz_tangents), out_axis_resources_thunk)`; `freshIdent` is the
new closure object's identity, which equality and hash ignore. -/
def pjit_jvp_update_params (params : PjitBindParams) (nzTangents : List Bool)
    (nzTangentsOutThunk : Unit → List Bool) (freshIdent : Nat) : PjitBindParams :=
  { callJaxprInvars := params.callJaxprInvars
    donated_invars :=
      params.donated_invars ++ filterNonzeroIns params.donated_invars nzTangents
    in_axis_resources :=
      params.in_axis_resources ++ filterNonzeroIns params.in_axis_resources nzTangents
    out_axis_resources_thunk :=
      { ident := freshIdent
        key := ThunkKey.jvpClosure nzTangents params.out_axis_resources_thunk.key
        run := fun _ =>
          let outs := params.out_axis_resources_thunk.run ()
          outs ++ (outs.zip (nzTangentsOutThunk ())).filterMap
            (fun x => if x.2 then some x.1 else none) } }

/-! ## Compilation cache (`_pjit_call_impl` through `@lu.cache`) -/

/-- The compilation-cache key of `_pjit_callable`: function identity,
input placements, output-placement thunk content, resource
environment, donation flags, name, and the argument abstract shapes. -/
structure PjitCacheKey where
  funId : Nat
  in_axis_resources : List ParsedPartitionSpec
  outThunkKey : ThunkKey
  resource_env : ResourceEnv
  donated_invars : List Bool
  name : String
  inAvals : List (List Nat)
deriving DecidableEq, Repr

/-- Lookup in the memoization table. -/
def cacheLookup {α : Type} (st : List (PjitCacheKey × α)) (k : PjitCacheKey) : Option α :=
  match st with
  | [] => none
  | (k', a) :: rest => if k' = k then some a else cacheLookup rest k

/-- `Modelled from the spec:` the `@lu.cache` memoization decorator on
`_pjit_callable` (the decorator lives outside this file's source).  A
hit returns the stored executable; a miss runs the deterministic
compilation `compile` on the key, stores the executable, and reports
that a compilation happened. -/
def pjit_callable_cached {α : Type} (compile : PjitCacheKey → α)
    (st : List (PjitCacheKey × α)) (k : PjitCacheKey) :
    α × List (PjitCacheKey × α) × Bool :=
  match cacheLookup st k with
  | some a => (a, st, false)
  | none =>
      let a := compile k
      (a, (k, a) :: st, true)

/-- `_pjit_call_impl`: build the cache key from the call parameters and
the arguments' abstract shapes, obtain the (possibly cached)
executable, and run it on the actual arguments.  Returns the result,
the new cache state, and whether this call compiled. -/
def pjit_call_impl {α β : Type} (compile : PjitCacheKey → α)
    (runExecutable : α → List (List Nat) → β)
    (st : List (PjitCacheKey × α)) (k : PjitCacheKey) (args : List (List Nat)) :
    β × List (PjitCacheKey × α) × Bool :=
  let r := pjit_callable_cached compile st k
  (runExecutable r.1 args, r.2.1, r.2.2)

/-! ## Lemmas about the shape/resource validator -/

/-- If every axis of the dimension is defined in `local_shape`, the
resource product succeeds with the product of the found sizes. -/
lemma resourceProd_complete (sizes : LocalShape) (axes : List String)
    (h : ∀ a ∈ axes, (lookupResource sizes a).isSome) :
    resourceProd sizes axes = Except.ok ((axes.filterMap (lookupResource sizes)).prod) := by
  induction axes with
  | nil => simp [resourceProd]
  | cons a rest ih =>
      obtain ⟨n, hn⟩ := Option.isSome_iff_exists.mp (h a (by simp))
      have hrest := ih (fun b hb => h b (by simp [hb]))
      simp [resourceProd, hn, hrest, List.filterMap_cons]

/-- If the resource product succeeds, every axis of the dimension is
defined in `local_shape`. -/
lemma resourceProd_sound (sizes : LocalShape) (axes : List String) (n : Nat)
    (h : resourceProd sizes axes = Except.ok n) :
    ∀ a ∈ axes, (lookupResource sizes a).isSome := by
  induction axes generalizing n with
  | nil => simp
  | cons a rest ih =>
      cases hl : lookupResource sizes a with
      | none => simp [resourceProd, hl] at h
      | some m =>
          cases hr : resourceProd sizes rest with
          | error e => simp [resourceProd, hl, hr] at h
          | ok k =>
              intro b hb
              rcases List.mem_cons.mp hb with rfl | hb2
              · simp [hl]
              · exact ih k hr b hb2

/-- Splitting a bounded universal over `n + 1` into the head and the
shifted tail. -/
lemma forallLtSucc {P : Nat → Prop} {n : Nat} :
    (∀ j, j < n + 1 → P j) ↔ P 0 ∧ ∀ j, j < n → P (j + 1) := by
  constructor
  · exact fun h => ⟨h 0 (Nat.succ_pos _), fun j hj => h (j + 1) (Nat.succ_lt_succ hj)⟩
  · rintro ⟨h0, hs⟩ j hj
    cases j with
    | zero => exact h0
    | succ j => exact hs j (Nat.lt_of_succ_lt_succ hj)

/-- The per-dimension loop succeeds exactly when every declared
dimension has all of its axes defined and divides the value's size. -/
lemma checkDims_ok_iff (spec : ParsedPartitionSpec) (sizes : LocalShape)
    (shape : List Nat) (parts : List (List String)) (i : Nat) :
    checkDims spec sizes shape parts i = Except.ok () ↔
    ∀ j, j < parts.length →
      ((∀ a ∈ parts.getD j [], (lookupResource sizes a).isSome) ∧
        shape.getD (i + j) 0 %
          ((parts.getD j []).filterMap (lookupResource sizes)).prod = 0) := by
  induction parts generalizing i with
  | nil => simp [checkDims]
  | cons axes rest ih =>
      cases hr : resourceProd sizes axes with
      | error a =>
          simp only [checkDims, hr]
          constructor
          · intro h; exact absurd h (by simp)
          · intro h
            obtain ⟨hdef, -⟩ := h 0 (Nat.succ_pos _)
            have hc := resourceProd_complete sizes axes (by simpa using hdef)
            rw [hr] at hc
            exact absurd hc (by simp)
      | ok size =>
          have hdef := resourceProd_sound sizes axes size hr
          have hval : size = (axes.filterMap (lookupResource sizes)).prod := by
            have hc := resourceProd_complete sizes axes hdef
            rw [hr] at hc
            exact Except.ok.inj hc
          simp only [checkDims, hr, List.length_cons]
          rw [forallLtSucc]
          by_cases hdiv : shape.getD i 0 % size = 0
          · rw [if_neg (fun hne => hne hdiv), ih (i + 1)]
            constructor
            · intro h
              refine ⟨⟨by simpa using hdef, by simpa [← hval, Nat.add_zero] using hdiv⟩,
                fun j hj => ?_⟩
              have hh := h j hj
              simp only [List.getD_cons_succ]
              rw [show i + (j + 1) = i + 1 + j from by omega]
              exact hh
            · rintro ⟨-, hs⟩ j hj
              have hh := hs j hj
              simp only [List.getD_cons_succ] at hh
              rw [show i + (j + 1) = i + 1 + j from by omega] at hh
              exact hh
          · rw [if_pos hdiv]
            constructor
            · intro h; exact absurd h (by simp)
            · rintro ⟨⟨-, hd0⟩, -⟩
              exact absurd (by simpa [← hval, Nat.add_zero] using hd0) hdiv

/-- One `(value, placement)` check succeeds exactly when the rank bound
and every dimension's conditions hold. -/
lemma checkVal_ok_iff (sizes : LocalShape) (shape : List Nat) (spec : ParsedPartitionSpec) :
    checkVal sizes shape spec = Except.ok () ↔
    (spec.partitions.length ≤ shape.length ∧
      ∀ j, j < spec.partitions.length →
        ((∀ a ∈ spec.partitions.getD j [], (lookupResource sizes a).isSome) ∧
          shape.getD j 0 %
            ((spec.partitions.getD j []).filterMap (lookupResource sizes)).prod = 0)) := by
  unfold checkVal
  by_cases h : shape.length < spec.partitions.length
  · rw [if_pos h]
    constructor
    · intro hh; exact absurd hh (by simp)
    · rintro ⟨hle, -⟩; omega
  · rw [if_neg h, checkDims_ok_iff]
    constructor
    · intro hh
      refine ⟨by omega, fun j hj => by simpa using hh j hj⟩
    · rintro ⟨-, hh⟩ j hj
      simpa using hh j hj

/-- The zipped loop of `_check_shapes_against_resources` succeeds
exactly when every paired check succeeds. -/
lemma checkShapes_ok_iff (sizes : LocalShape) (vals : List (List Nat))
    (specs : List ParsedPartitionSpec) :
    check_shapes_against_resources sizes vals specs = Except.ok () ↔
    ∀ p ∈ vals.zip specs, checkVal sizes p.1 p.2 = Except.ok () := by
  induction vals generalizing specs with
  | nil => simp [check_shapes_against_resources]
  | cons v vs ih =>
      cases specs with
      | nil => simp [check_shapes_against_resources]
      | cons s ss =>
          cases h : checkVal sizes v s with
          | ok u =>
              cases u
              simp [check_shapes_against_resources, h, ih]
          | error e =>
              simp only [check_shapes_against_resources, h]
              constructor
              · intro hh; exact absurd hh (by simp)
              · intro hh
                have := hh (v, s) (by simp)
                rw [h] at this
                exact absurd this (by simp)

/-- Claim C1: the shape/resource check succeeds iff, for every paired
`(value, placement)`, the value's rank is at least the number of
placement dimensions, every resource axis named by the placement is a
key of `local_shape`, and each declared dimension's size is divisible
by the product of its resource-axis sizes; and the zero-dimension
`REPLICATED` placement passes for every shape. -/
theorem claim_C1 (sizes : LocalShape) (vals : List (List Nat))
    (specs : List ParsedPartitionSpec) :
    (check_shapes_against_resources sizes vals specs = Except.ok () ↔
      ∀ p ∈ vals.zip specs,
        (p.2.partitions.length ≤ p.1.length ∧
          ∀ j, j < p.2.partitions.length →
            ((∀ a ∈ p.2.partitions.getD j [], (lookupResource sizes a).isSome) ∧
              p.1.getD j 0 %
                ((p.2.partitions.getD j []).filterMap (lookupResource sizes)).prod = 0))) ∧
    (∀ shape : List Nat, checkVal sizes shape REPLICATED = Except.ok ()) := by
  constructor
  · rw [checkShapes_ok_iff]
    constructor
    · exact fun h p hp => (checkVal_ok_iff sizes p.1 p.2).mp (h p hp)
    · exact fun h p hp => (checkVal_ok_iff sizes p.1 p.2).mpr (h p hp)
  · intro shape
    simp [checkVal, REPLICATED, checkDims]

/-- Concrete instantiation of the C1 equivalence: a rank-1 value of
size 8 partitioned along an axis of size 2 passes the validator. -/
theorem claim_C1_witness :
    check_shapes_against_resources [("x", 2)] [[8]]
      [⟨UserSpec.pspec [AxisEntry.single "x"], [["x"]]⟩] = Except.ok () :=
  (claim_C1 [("x", 2)] [[8]] [⟨UserSpec.pspec [AxisEntry.single "x"], [["x"]]⟩]).1.mpr
    (by decide)

/-! ## Lemmas about the uniqueness checker -/

/-- A `foldl` over `Nat.max` is at least its initial accumulator. -/
lemma foldl_max_le_init (l : List Nat) (acc : Nat) : acc ≤ l.foldl Nat.max acc := by
  induction l generalizing acc with
  | nil => exact Nat.le_refl acc
  | cons x xs ih => exact Nat.le_trans (Nat.le_max_left acc x) (ih (Nat.max acc x))

/-- Every member of the list is at most the `foldl Nat.max`. -/
lemma mem_le_foldl_max (l : List Nat) (acc x : Nat) (hx : x ∈ l) :
    x ≤ l.foldl Nat.max acc := by
  induction l generalizing acc with
  | nil => cases hx
  | cons y ys ih =>
      rcases List.mem_cons.mp hx with rfl | h2
      · exact Nat.le_trans (Nat.le_max_right acc x) (foldl_max_le_init ys _)
      · exact ih _ h2

/-- The multiplicity of any occurring axis bounds the reported largest
multiplicity from below. -/
lemma count_le_maxCount (all : List String) (a : String) (ha : a ∈ all) :
    all.count a ≤ maxCount all :=
  mem_le_foldl_max _ 0 _ (List.mem_map_of_mem _ ha)

/-- The number of dimensions containing an axis bounds the axis's
multiplicity across the chained dimensions. -/
lemma dims_le_count (parts : List (List String)) (a : String) :
    (parts.filter (fun d => a ∈ d)).length ≤ parts.flatten.count a := by
  induction parts with
  | nil => simp
  | cons d rest ih =>
      by_cases hd : a ∈ d
      · have h1 : 1 ≤ d.count a := List.count_pos_iff.mpr hd
        simp only [List.flatten_cons, List.count_append, List.filter_cons]
        rw [if_pos (by simpa using hd)]
        simp only [List.length_cons]
        omega
      · simp only [List.flatten_cons, List.count_append, List.filter_cons]
        rw [if_neg (by simpa using hd)]
        exact Nat.le_trans ih (Nat.le_add_left _ _)

/-- Claim C3: a declaration that binds some resource axis in more than
one dimension makes the uniqueness checker raise a `ValueError` whose
payload is exactly the set of axis names occurring more than once; a
declaration with no dimensions is accepted, and the loop skips it. -/
theorem claim_C3 :
    (∀ (spec : ParsedPartitionSpec) (a : String),
      1 < (spec.partitions.filter (fun d => a ∈ d)).length →
      ∃ l, checkUniqueOne spec = Except.error (UniqueError.valueError l) ∧
        ∀ x, x ∈ l ↔ 1 < spec.partitions.flatten.count x) ∧
    (∀ u : UserSpec, checkUniqueOne ⟨u, []⟩ = Except.ok ()) ∧
    (∀ rest, check_unique_resources (REPLICATED :: rest) = check_unique_resources rest) := by
  refine ⟨?_, fun u => rfl, fun rest => rfl⟩
  intro spec a h
  have hca : 1 < spec.partitions.flatten.count a :=
    Nat.lt_of_lt_of_le h (dims_le_count spec.partitions a)
  have hmem : a ∈ spec.partitions.flatten := List.count_pos_iff.mp (by omega)
  have hlen : ¬ spec.partitions.length = 0 := by
    intro h0
    rw [List.length_eq_zero] at h0
    rw [h0] at hmem
    simp at hmem
  have hne : ¬ spec.partitions.flatten.isEmpty = true := by
    intro he
    rw [List.isEmpty_iff] at he
    rw [he] at hmem
    simp at hmem
  have hmax : 1 < maxCount spec.partitions.flatten :=
    Nat.lt_of_lt_of_le hca (count_le_maxCount _ _ hmem)
  have hmu : a ∈ spec.partitions.flatten.dedup.filter
      (fun r => 1 < spec.partitions.flatten.count r) :=
    List.mem_filter.mpr ⟨List.mem_dedup.mpr hmem, by simpa using hca⟩
  have hmune : ¬ (spec.partitions.flatten.dedup.filter
      (fun r => 1 < spec.partitions.flatten.count r)).isEmpty = true := by
    intro he
    rw [List.isEmpty_iff] at he
    rw [he] at hmu
    simp at hmu
  refine ⟨spec.partitions.flatten.dedup.filter
    (fun r => 1 < spec.partitions.flatten.count r), ?_, ?_⟩
  · simp only [checkUniqueOne]
    rw [if_neg hlen, if_neg hne, if_pos hmax, if_neg hmune]
  · intro x
    constructor
    · intro hx
      have := List.mem_filter.mp hx
      simpa using this.2
    · intro hx
      exact List.mem_filter.mpr
        ⟨List.mem_dedup.mpr (List.count_pos_iff.mp (by omega)), by simpa using hx⟩

/-- A declaration naming axis `x` in two different dimensions. -/
def demoDupSpec : ParsedPartitionSpec := ⟨UserSpec.noSpec, [["x"], ["x"]]⟩

/-- Concrete instantiation of C3: the duplicate declaration above is
rejected with exactly the duplicated axis names. -/
theorem claim_C3_witness :
    ∃ l, checkUniqueOne demoDupSpec = Except.error (UniqueError.valueError l) ∧
      ∀ x, x ∈ l ↔ 1 < demoDupSpec.partitions.flatten.count x :=
  claim_C3.1 demoDupSpec "x" (by decide)

/-! ## Claims about parsing, equality and hashing -/

/-- Claim C6: `ParsedPartitionSpec` equality is structural over the
`(partitions, user_spec)` pair, and the hash is a function of the
partitions component, so equal specifications hash equally. -/
theorem claim_C6 (a b : ParsedPartitionSpec) :
    (ppsEq a b = true ↔ (a.partitions = b.partitions ∧ a.user_spec = b.user_spec)) ∧
    (a.partitions = b.partitions → ppsHash a = ppsHash b) ∧
    (ppsEq a b = true → ppsHash a = ppsHash b) := by
  refine ⟨?_, ?_, ?_⟩
  · simp [ppsEq, Prod.ext_iff]
  · intro h
    simp [ppsHash, h]
  · intro h
    simp [ppsEq, Prod.ext_iff] at h
    simp [ppsHash, h.1]

/-- Concrete instantiation of C6: two specs with equal partitions but
different user declarations hash equally. -/
theorem claim_C6_witness :
    ppsHash ⟨UserSpec.noSpec, [["x"]]⟩ = ppsHash ⟨UserSpec.pspec [], [["x"]]⟩ :=
  (claim_C6 ⟨UserSpec.noSpec, [["x"]]⟩ ⟨UserSpec.pspec [], [["x"]]⟩).2.1 rfl

/-- Claim C7: a `None` declaration — at the top level or as a leaf —
parses to `REPLICATED`, the placement with the empty dimension
sequence. -/
theorem claim_C7 :
    (from_user_input UserSpec.noSpec = Except.ok REPLICATED) ∧
    REPLICATED.partitions = [] ∧
    prepare_axis_resources Option.none = Except.ok [REPLICATED] ∧
    prepare_axis_resources (Option.some [UserSpec.noSpec]) = Except.ok [REPLICATED] ∧
    (∀ entries ps, parseEntries entries = Except.ok ps →
      ∀ i, entries.get? i = some UserSpec.noSpec → ps.get? i = some REPLICATED) := by
  refine ⟨rfl, rfl, rfl, rfl, ?_⟩
  intro entries
  induction entries with
  | nil =>
      intro ps h i hi
      cases i <;> simp at hi
  | cons e rest ih =>
      intro ps h i hi
      cases he : from_user_input e with
      | error t => simp [parseEntries, he] at h
      | ok p =>
          cases hr : parseEntries rest with
          | error err => simp [parseEntries, he, hr] at h
          | ok ps' =>
              simp only [parseEntries, he, hr] at h
              cases h
              cases i with
              | zero =>
                  simp only [List.get?] at hi
                  cases hi
                  simp only [from_user_input] at he
                  cases he
                  rfl
              | succ i =>
                  exact ih ps' hr i (by simpa using hi)

/-- Concrete instantiation of C7: the single-leaf `None` declaration
parses to `REPLICATED` at its position. -/
theorem claim_C7_witness :
    ([REPLICATED] : List ParsedPartitionSpec).get? 0 = some REPLICATED :=
  claim_C7.2.2.2.2 [UserSpec.noSpec] [REPLICATED] rfl 0 rfl

/-- Claim C8: the transpose (gradient) rule of the sharding-constraint
primitive rebinds the same primitive on the cotangent with the
identical placement and resource environment, and the operator's
abstract evaluation is the identity. -/
theorem claim_C8 (ct : ShardingTerm) (r : ParsedPartitionSpec) (env : ResourceEnv)
    (x : List Nat) :
    shardingConstraintTranspose ct r env = [shardingConstraintBind ct r env] ∧
    shardingConstraintTranspose ct r env = [ShardingTerm.shardingConstraint ct r env] ∧
    shardingConstraintAbstractEval x r env = x :=
  ⟨rfl, rfl, rfl⟩

/-! ## Claim C2: cache idempotence -/

/-- Inserting a key at the front of the memoization table makes it hit. -/
lemma cacheLookup_cons_self {α : Type} (k : PjitCacheKey) (a : α)
    (st : List (PjitCacheKey × α)) : cacheLookup ((k, a) :: st) k = some a := by
  simp [cacheLookup]

/-- Claim C2: starting from a cache that does not hold the key, two
invocations of the pjit call machinery with the same key trigger
exactly one compilation — the first compiles, the second hits — and
both calls on the same arguments return equal results, each equal to
what recompiling would produce. -/
theorem claim_C2 {α β : Type} (compile : PjitCacheKey → α)
    (runExecutable : α → List (List Nat) → β)
    (st : List (PjitCacheKey × α)) (k : PjitCacheKey) (args : List (List Nat))
    (h : cacheLookup st k = none) :
    (pjit_call_impl compile runExecutable st k args).2.2 = true ∧
    (pjit_call_impl compile runExecutable
      (pjit_call_impl compile runExecutable st k args).2.1 k args).2.2 = false ∧
    (pjit_call_impl compile runExecutable st k args).1 =
      (pjit_call_impl compile runExecutable
        (pjit_call_impl compile runExecutable st k args).2.1 k args).1 ∧
    (pjit_call_impl compile runExecutable
      (pjit_call_impl compile runExecutable st k args).2.1 k args).1 =
      runExecutable (compile k) args := by
  simp [pjit_call_impl, pjit_callable_cached, h, cacheLookup_cons_self]

/-- A concrete cache key. -/
def demoKey : PjitCacheKey := ⟨0, [], ThunkKey.base 0, ⟨[], 0⟩, [], "f", []⟩

/-- Concrete instantiation of C2: from the empty cache, the first call
with `demoKey` compiles. -/
theorem claim_C2_witness :
    (pjit_call_impl (fun _ => (0 : Nat)) (fun a _ => a) [] demoKey []).2.2 = true :=
  (claim_C2 (fun _ => (0 : Nat)) (fun a _ => a) [] demoKey [] rfl).1

/-! ## Claim C4: the partial-evaluation length invariant -/

/-- An opaque output-placement thunk for concrete instantiations. -/
def demoThunk : OutThunk := ⟨0, ThunkKey.base 0, fun _ => []⟩

/-- Claim C4 fails on the code: with one prepended constant and one of
two inputs known, the rewritten call body has `rewrittenInvarCount 1
[false, true] = 2` invars, but the staging rewrite returns donation
and placement tuples of length `1`, because `num_consts` is computed
as `len(call_jaxpr.invars) - len(donated_invars)` (= 0 here) while the
unknown-position filter keeps only one entry. -/
theorem claim_C4_bug :
    (rewrittenInvarCount 1 [false, true] = 2) ∧
    ((pjit_pe_update_params
        { callJaxprInvars := rewrittenInvarCount 1 [false, true]
          donated_invars := [false, false]
          in_axis_resources := [REPLICATED, REPLICATED]
          out_axis_resources_thunk := demoThunk }
        [false, true]).donated_invars.length = 1) ∧
    ((pjit_pe_update_params
        { callJaxprInvars := rewrittenInvarCount 1 [false, true]
          donated_invars := [false, false]
          in_axis_resources := [REPLICATED, REPLICATED]
          out_axis_resources_thunk := demoThunk }
        [false, true]).in_axis_resources.length = 1) ∧
    (1 ≠ rewrittenInvarCount 1 [false, true]) :=
  ⟨rfl, rfl, rfl, by decide⟩

/-! ## Claim C5: content stability of the differentiation rewrite -/

/-- With equally long lists, the nonzero filter keeps one entry per
true mask position. -/
lemma filterNonzeroIns_length {α : Type} (l : List α) (nz : List Bool)
    (h : l.length = nz.length) :
    (filterNonzeroIns l nz).length = nz.count true := by
  induction l generalizing nz with
  | nil =>
      cases nz with
      | nil => simp [filterNonzeroIns]
      | cons b nz' => simp at h
  | cons a l' ih =>
      cases nz with
      | nil => simp at h
      | cons b nz' =>
          have h' : l'.length = nz'.length := by simpa using h
          have ihx := ih nz' h'
          cases b <;>
            simp [filterNonzeroIns, List.zip_cons_cons, List.filterMap_cons,
              List.count_cons, ← ihx, filterNonzeroIns]

/-- Membership in the nonzero filter: exactly the entries whose
position carries a true mask flag. -/
lemma mem_filterNonzeroIns {α : Type} {l : List α} {nz : List Bool} {x : α} :
    x ∈ filterNonzeroIns l nz ↔ ∃ i, l.get? i = some x ∧ nz.get? i = some true := by
  induction l generalizing nz with
  | nil =>
      constructor
      · intro hx; simp [filterNonzeroIns] at hx
      · rintro ⟨i, hi, -⟩; cases i <;> simp at hi
  | cons a l' ih =>
      cases nz with
      | nil =>
          constructor
          · intro hx; simp [filterNonzeroIns] at hx
          · rintro ⟨i, -, hi⟩; cases i <;> simp at hi
      | cons b nz' =>
          cases b with
          | false =>
              rw [show filterNonzeroIns (a :: l') (false :: nz') = filterNonzeroIns l' nz'
                from by simp [filterNonzeroIns, List.zip_cons_cons, List.filterMap_cons]]
              rw [ih]
              constructor
              · rintro ⟨i, h1, h2⟩
                exact ⟨i + 1, by simpa using h1, by simpa using h2⟩
              · rintro ⟨i, h1, h2⟩
                cases i with
                | zero => simp at h2
                | succ i => exact ⟨i, by simpa using h1, by simpa using h2⟩
          | true =>
              rw [show filterNonzeroIns (a :: l') (true :: nz') = a :: filterNonzeroIns l' nz'
                from by simp [filterNonzeroIns, List.zip_cons_cons, List.filterMap_cons]]
              constructor
              · intro hx
                rcases List.mem_cons.mp hx with rfl | hx2
                · exact ⟨0, rfl, rfl⟩
                · obtain ⟨i, h1, h2⟩ := ih.mp hx2
                  exact ⟨i + 1, by simpa using h1, by simpa using h2⟩
              · rintro ⟨i, h1, h2⟩
                cases i with
                | zero =>
                    have hx0 : a = x := by simpa using h1
                    subst hx0
                    exact List.mem_cons_self _ _
                | succ i =>
                    exact List.mem_cons.mpr
                      (Or.inr (ih.mpr ⟨i, by simpa using h1, by simpa using h2⟩))

/-- Claim C5: the forward-differentiation rewrite is a pure function of
the original parameters and the nonzero-tangent mask — two derivations
(at distinct fresh closure identities) yield equal donation and
placement tuples, and output thunks with equal `HashableFunction`
content and hash; the extension appends one entry per nonzero tangent
input, copying that input's primal placement. -/
theorem claim_C5 (params : PjitBindParams) (nz : List Bool)
    (nzOut : Unit → List Bool) (i j : Nat)
    (hd : params.donated_invars.length = nz.length)
    (ha : params.in_axis_resources.length = nz.length) :
    (pjit_jvp_update_params params nz nzOut i).donated_invars =
      (pjit_jvp_update_params params nz nzOut j).donated_invars ∧
    (pjit_jvp_update_params params nz nzOut i).in_axis_resources =
      (pjit_jvp_update_params params nz nzOut j).in_axis_resources ∧
    thunkEq (pjit_jvp_update_params params nz nzOut i).out_axis_resources_thunk
      (pjit_jvp_update_params params nz nzOut j).out_axis_resources_thunk = true ∧
    thunkHash (pjit_jvp_update_params params nz nzOut i).out_axis_resources_thunk =
      thunkHash (pjit_jvp_update_params params nz nzOut j).out_axis_resources_thunk ∧
    (pjit_jvp_update_params params nz nzOut i).donated_invars =
      params.donated_invars ++ filterNonzeroIns params.donated_invars nz ∧
    (pjit_jvp_update_params params nz nzOut i).in_axis_resources =
      params.in_axis_resources ++ filterNonzeroIns params.in_axis_resources nz ∧
    (pjit_jvp_update_params params nz nzOut i).donated_invars.length =
      params.donated_invars.length + nz.count true ∧
    (pjit_jvp_update_params params nz nzOut i).in_axis_resources.length =
      params.in_axis_resources.length + nz.count true ∧
    (∀ k spec, params.in_axis_resources.get? k = some spec → nz.get? k = some true →
      spec ∈ (pjit_jvp_update_params params nz nzOut i).in_axis_resources) := by
  refine ⟨rfl, rfl, ?_, ?_, rfl, rfl, ?_, ?_, ?_⟩
  · simp [thunkEq, pjit_jvp_update_params]
  · simp [thunkHash, pjit_jvp_update_params]
  · simp [pjit_jvp_update_params, filterNonzeroIns_length _ _ hd]
  · simp [pjit_jvp_update_params, filterNonzeroIns_length _ _ ha]
  · intro k spec h1 h2
    simp only [pjit_jvp_update_params]
    exact List.mem_append.mpr (Or.inr (mem_filterNonzeroIns.mpr ⟨k, h1, h2⟩))

/-- Concrete call-node parameters. -/
def demoParams : PjitBindParams := ⟨1, [true], [REPLICATED], demoThunk⟩

/-- Concrete instantiation of C5: two derivations at fresh identities 5
and 9 produce output thunks comparing equal. -/
theorem claim_C5_witness :
    thunkEq (pjit_jvp_update_params demoParams [true] (fun _ => []) 5).out_axis_resources_thunk
      (pjit_jvp_update_params demoParams [true] (fun _ => []) 9).out_axis_resources_thunk
      = true :=
  (claim_C5 demoParams [true] (fun _ => []) 5 9 rfl rfl).2.2.1

/-! ## Claim C9: named-axis resource typing -/

/-- One boundary check passes exactly when the positional placement's
resources avoid every resource bound to the value's named axes. -/
lemma checkResources_ok_iff (ns : List String) (pos : ParsedPartitionSpec)
    (named : String → List String) :
    check_resources_against_named_axes ns pos named = Except.ok () ↔
    ∀ r ∈ pos.partitions.flatten, r ∉ (ns.map named).flatten := by
  constructor
  · intro hok r hr hrn
    have hmem : r ∈ pos.partitions.flatten.dedup.filter
        (fun r => r ∈ (ns.map named).flatten) :=
      List.mem_filter.mpr ⟨List.mem_dedup.mpr hr, by simpa using hrn⟩
    have hne : ¬ (pos.partitions.flatten.dedup.filter
        (fun r => r ∈ (ns.map named).flatten)).isEmpty = true := by
      intro he
      rw [List.isEmpty_iff] at he
      rw [he] at hmem
      simp at hmem
    simp only [check_resources_against_named_axes] at hok
    rw [if_neg hne] at hok
    exact absurd hok (by simp)
  · intro hdis
    have hnil : pos.partitions.flatten.dedup.filter
        (fun r => r ∈ (ns.map named).flatten) = [] :=
      List.filter_eq_nil_iff.mpr
        (fun x hx => by simpa using hdis x (List.mem_dedup.mp hx))
    simp only [check_resources_against_named_axes]
    rw [hnil]
    rfl

/-- When one boundary check fails, its payload is exactly the
intersection of the two resource sets. -/
lemma checkResources_error_iff (ns : List String) (pos : ParsedPartitionSpec)
    (named : String → List String) (l : List String)
    (h : check_resources_against_named_axes ns pos named = Except.error l) :
    ∀ x, x ∈ l ↔ (x ∈ pos.partitions.flatten ∧ x ∈ (ns.map named).flatten) := by
  simp only [check_resources_against_named_axes] at h
  by_cases he : (pos.partitions.flatten.dedup.filter
      (fun r => r ∈ (ns.map named).flatten)).isEmpty = true
  · rw [if_pos he] at h
    simp at h
  · rw [if_neg he] at h
    have hl : l = pos.partitions.flatten.dedup.filter
        (fun r => r ∈ (ns.map named).flatten) := (Except.error.inj h).symm
    intro x
    rw [hl, List.mem_filter, List.mem_dedup]
    simp

/-- A boundary pass checks each zipped pair, succeeding exactly when
every pair passes. -/
lemma checkBoundary_ok_iff (pairs : List (List String × ParsedPartitionSpec))
    (named : String → List String) :
    checkBoundary pairs named = Except.ok () ↔
    ∀ p ∈ pairs, check_resources_against_named_axes p.1 p.2 named = Except.ok () := by
  induction pairs with
  | nil => simp [checkBoundary]
  | cons pr rest ih =>
      obtain ⟨ns, p⟩ := pr
      cases h : check_resources_against_named_axes ns p named with
      | ok u =>
          cases u
          simp only [checkBoundary, h]
          rw [ih]
          constructor
          · intro hh q hq
            rcases List.mem_cons.mp hq with rfl | hq2
            · exact h
            · exact hh q hq2
          · intro hh q hq
            exact hh q (List.mem_cons_of_mem _ hq)
      | error e =>
          simp only [checkBoundary, h]
          constructor
          · intro hh; exact absurd hh (by simp)
          · intro hh
            have := hh (ns, p) (by simp)
            rw [h] at this
            exact absurd this (by simp)

/-- Claim C9: a boundary value whose positional placement shares a mesh
resource with its named axes fails the typing check with exactly the
overlapping axes; with disjoint sets for every input and output (and a
passing delegated body check) the pjit typing pass succeeds. -/
theorem claim_C9 :
    (∀ ns pos named, check_resources_against_named_axes ns pos named = Except.ok () ↔
      ∀ r ∈ pos.partitions.flatten, r ∉ (ns.map named).flatten) ∧
    (∀ ns pos named l, check_resources_against_named_axes ns pos named = Except.error l →
      ∀ x, x ∈ l ↔ (x ∈ pos.partitions.flatten ∧ x ∈ (ns.map named).flatten)) ∧
    (∀ invarNS inAxis (body : Except (List String) Unit) outNS outAxis named,
      resource_typing_pjit invarNS inAxis body outNS outAxis named = Except.ok () ↔
      ((∀ p ∈ invarNS.zip inAxis, ∀ r ∈ p.2.partitions.flatten,
          r ∉ (p.1.map named).flatten) ∧
        body = Except.ok () ∧
        (∀ p ∈ outNS.zip outAxis, ∀ r ∈ p.2.partitions.flatten,
          r ∉ (p.1.map named).flatten))) := by
  refine ⟨checkResources_ok_iff, checkResources_error_iff, ?_⟩
  intro invarNS inAxis body outNS outAxis named
  cases hcb1 : checkBoundary (invarNS.zip inAxis) named with
  | error e =>
      constructor
      · intro h
        simp [resource_typing_pjit, hcb1] at h
      · rintro ⟨h1, -, -⟩
        have hok : checkBoundary (invarNS.zip inAxis) named = Except.ok () :=
          (checkBoundary_ok_iff _ _).mpr
            (fun p hp => (checkResources_ok_iff _ _ _).mpr (h1 p hp))
        rw [hcb1] at hok
        exact absurd hok (by simp)
  | ok u =>
      cases u
      have h1iff : ∀ p ∈ invarNS.zip inAxis, ∀ r ∈ p.2.partitions.flatten,
          r ∉ (p.1.map named).flatten :=
        fun p hp => (checkResources_ok_iff _ _ _).mp
          ((checkBoundary_ok_iff _ _).mp hcb1 p hp)
      cases body with
      | error e =>
          constructor
          · intro h
            simp [resource_typing_pjit, hcb1] at h
          · rintro ⟨-, hb, -⟩
            exact absurd hb (by simp)
      | ok u2 =>
          cases u2
          simp only [resource_typing_pjit, hcb1]
          rw [checkBoundary_ok_iff]
          constructor
          · intro h
            exact ⟨h1iff, by trivial,
              fun p hp => (checkResources_ok_iff _ _ _).mp (h p hp)⟩
          · rintro ⟨-, -, h3⟩
            exact fun p hp => (checkResources_ok_iff _ _ _).mpr (h3 p hp)

/-- Concrete instantiation of C9: a positional placement on mesh axis
`m` is accepted against a named axis bound to mesh axis `n`. -/
theorem claim_C9_witness :
    check_resources_against_named_axes ["ax"] ⟨UserSpec.noSpec, [["m"]]⟩
      (fun _ => ["n"]) = Except.ok () :=
  (claim_C9.1 ["ax"] ⟨UserSpec.noSpec, [["m"]]⟩ (fun _ => ["n"])).mpr (by decide)

end PjitSpec
